import Mathlib

/-!
# shader-canvas: a verification development for `src/canvas.c`

Shallow embedding of the pure and state-passing parts of `canvas.c`:

* the padded row stride computed in `main` and `resize_callback`;
* `parse_args`, as a loop body plus a fuelled driver (the C loop need not terminate);
* `load_file`, over an explicit heap of blocks with `calloc`/`realloc`/`fread`;
* `compile_shader`, `compile_program`, `check_compile_errors` over a table of GL objects;
* the export buffer `fb_content` as a state machine driven by start-up, resize and frame events.

C strings are lists of characters (`CStr`), an `int` is an `Int` truncated to 32 bits
(`to_int32`) wherever the source computes with it, and C's `%` on `int` is `Int.tmod`
(truncating remainder).
-/

namespace Canvas

/-! ## Definitions -/

/-- A C string, without its terminating zero byte. -/
abbrev CStr := List Char

/-! ### Row stride (`main`, lines 166-167 and 208-209; `resize_callback`, lines 254-255) -/

/-- Conversion of a mathematical value to a 32-bit two's complement `int`. -/
def to_int32 (x : Int) : Int :=
  (x + 2 ^ 31) % 2 ^ 32 - 2 ^ 31

/-- The largest framebuffer width for which the two source lines stay within the range
of a 32-bit `int`: at 715827882 the sum is 2147483650. -/
def max_width : Int := 715827881

/-- The source lines `int stride = 3 * width; stride += (stride % 4) * (4 - stride % 4);`.
The same two lines occur at start-up, in the export branch and in `resize_callback`.
`stride` is a 32-bit `int`: the product and the sum are truncated to 32 bits, which is
what two's complement hardware does where C leaves the overflow undefined; the remainder,
the difference and their product stay between -21 and 21. -/
def stride (width : Int) : Int :=
  let stride := to_int32 (3 * width)
  to_int32 (stride + (Int.tmod stride 4) * (4 - Int.tmod stride 4))

/-- The stride the specification asks for: `((3*W + 3) / 4) * 4` with C integer division,
that is `3*W` rounded up to the next multiple of 4. -/
def stride_spec (W : Int) : Int :=
  Int.tdiv (3 * W + 3) 4 * 4

/-! ### `parse_args` (lines 358-416) -/

/-- The record `canvargs_t`; `fshader_file = none` is the C `NULL`. -/
structure canvargs_t where
  width : Int
  height : Int
  fshader_file : Option CStr
  fullscreen : Bool
deriving DecidableEq, Repr

/-- What `parse_args` and `usage` write: the events, not the literal text. -/
inductive Emit where
  /-- A call `usage(arg0, stream)`; `to_stderr = false` means `stdout`. -/
  | usage (arg0 : Option CStr) (to_stderr : Bool)
  /-- The line `"%s is not a valid option.\n"` on `stderr`. -/
  | invalid_option (arg : CStr)
  /-- The line `"Cannot provide multiple fragment shaders.\n"` on `stderr`. -/
  | multiple_shaders
deriving DecidableEq, Repr

/-- C `isspace` in the "C" locale. -/
def isspace (c : Char) : Bool :=
  c.toNat = 32 || (9 ≤ c.toNat && c.toNat ≤ 13)

/-- C `isdigit`. -/
def isdigit (c : Char) : Bool :=
  48 ≤ c.toNat && c.toNat ≤ 57

/-- The value of the longest prefix of decimal digits, accumulated left to right. -/
def digits_value : List Char → Nat → Nat
  | [], acc => acc
  | c :: cs, acc => if isdigit c then digits_value cs (10 * acc + (c.toNat - 48)) else acc

/-- C `atoi`: skip white space, read an optional sign, then decimal digits; anything
that follows is ignored and a string without digits gives 0. A value outside the range
of `int` is undefined behaviour in C; the model truncates it to 32 bits, as
`(int) strtol(s, NULL, 10)` does on the usual platforms. -/
def atoi (s : CStr) : Int :=
  match s.dropWhile isspace with
  | [] => to_int32 0
  | c :: r =>
    if c = '-' then to_int32 (-(digits_value r 0 : Int))
    else if c = '+' then to_int32 (digits_value r 0 : Int)
    else to_int32 (digits_value (c :: r) 0 : Int)

/-- One pass through the body of the `while (i < argc)` loop. -/
inductive Step where
  /-- The body reached the loop test again with these values. -/
  | next (args : canvargs_t) (i : Nat) (out : List Emit)
  /-- The body called `exit(code)`. -/
  | exit (code : Int) (out : List Emit)
  /-- The body called `atoi(argv[argc])`, that is `atoi(NULL)`. -/
  | fault
deriving DecidableEq, Repr

/-- The body of the loop of `parse_args` at index `i`, for `i < argc`
(an index outside `argv` leaves the state as it is). -/
def parse_body (argv : List CStr) (a : canvargs_t) (i : Nat) : Step :=
  match argv[i]? with
  | none => .next a i []
  | some arg =>
    if arg.head? = some '-' then
      if arg = ['-', '-', 'h', 'e', 'l', 'p'] then
        .exit 0 [.usage argv.head? false]
      else if arg = ['-', 'w'] then
        match argv[i + 1]? with
        | some v => .next { a with width := atoi v } (i + 2) []
        | none => .fault
      else if arg = ['-', 'h'] then
        match argv[i + 1]? with
        | some v => .next { a with height := atoi v } (i + 2) []
        | none => .fault
      else if arg = ['-', 'f'] then
        -- `continue` without advancing `i`
        .next { a with fullscreen := true } i []
      else
        -- falls out of the `if` without advancing `i`
        .next a i [.invalid_option arg, .usage argv.head? true]
    else
      match a.fshader_file with
      | some _ => .exit (-1) [.multiple_shaders, .usage argv.head? true]
      | none => .next { a with fshader_file := some arg } (i + 1) []

/-- How a call of `parse_args` ends. -/
inductive Outcome where
  /-- The loop test failed and the function returned with this record. -/
  | returned (args : canvargs_t) (out : List Emit)
  /-- The process was terminated by `exit(code)`. -/
  | exited (code : Int) (out : List Emit)
  /-- Undefined behaviour: `atoi(NULL)`. -/
  | fault
deriving DecidableEq, Repr

/-- The `while (i < argc)` loop, run for at most `fuel` passes; `none` means the loop is
still running after `fuel` passes. -/
def parse_loop (argv : List CStr) : Nat → canvargs_t → Nat → List Emit → Option Outcome
  | 0, _, _, _ => none
  | fuel + 1, a, i, out =>
    if i < argv.length then
      match parse_body argv a i with
      | .next a1 i1 o => parse_loop argv fuel a1 i1 (out ++ o)
      | .exit c o => some (.exited c (out ++ o))
      | .fault => some .fault
    else
      some (.returned a out)

/-- The defaults written at the top of `parse_args`. -/
def default_args : canvargs_t :=
  { width := 800, height := 600, fshader_file := none, fullscreen := false }

/-- The function `parse_args(argstruct, argc, argv)` with `argc = argv.length`,
run for at most `fuel` passes of its loop. -/
def parse_args (fuel : Nat) (argv : List CStr) : Option Outcome :=
  parse_loop argv fuel default_args 1 []

/-! ### Argument lists used to state the properties of `parse_args` -/

/-- The character of a decimal digit `d < 10`. -/
def digit_char : Nat → Char
  | 0 => '0' | 1 => '1' | 2 => '2' | 3 => '3' | 4 => '4'
  | 5 => '5' | 6 => '6' | 7 => '7' | 8 => '8' | _ => '9'

/-- Decimal digits of `n` in front of `acc`, most significant first; `fuel` bounds the
number of digits. -/
def decimal_aux : Nat → Nat → List Char → List Char
  | 0, _, acc => acc
  | fuel + 1, n, acc =>
    if n < 10 then digit_char n :: acc
    else decimal_aux fuel (n / 10) (digit_char (n % 10) :: acc)

/-- The decimal numeral of a natural number, without leading zeros. -/
def decimal_nat (n : Nat) : CStr :=
  decimal_aux (n + 1) n []

/-- The decimal numeral of an integer, with a leading `-` when negative. -/
def decimal (a : Int) : CStr :=
  if a < 0 then '-' :: decimal_nat a.natAbs else decimal_nat a.natAbs

/-- The range of a 32-bit `int`. -/
def in_int_range (a : Int) : Prop :=
  -2147483648 ≤ a ∧ a ≤ 2147483647

instance (a : Int) : Decidable (in_int_range a) := by
  unfold in_int_range; infer_instance

/-- A group of arguments that `parse_args` consumes in one pass of its loop. -/
inductive Item where
  /-- The pair `-w V`. -/
  | w (v : CStr)
  /-- The pair `-h V`. -/
  | h (v : CStr)
  /-- A positional filename. -/
  | file (name : CStr)
deriving DecidableEq, Repr

/-- The arguments of an item as they stand in `argv`. -/
def Item.args : Item → List CStr
  | .w v => [['-', 'w'], v]
  | .h v => [['-', 'h'], v]
  | .file name => [name]

/-- The arguments of a list of items. -/
def flat_args : List Item → List CStr
  | [] => []
  | it :: rest => it.args ++ flat_args rest

/-- The record after an item has been consumed. -/
def Item.apply (a : canvargs_t) : Item → canvargs_t
  | .w v => { a with width := atoi v }
  | .h v => { a with height := atoi v }
  | .file name => { a with fshader_file := some name }

/-- The items are `-w V` / `-h V` pairs and at most one filename, which does not start
with `-`; `has_file` tells whether a filename was already seen. -/
def ok_items : Bool → List Item → Bool
  | _, [] => true
  | b, .w _ :: rest => ok_items b rest
  | b, .h _ :: rest => ok_items b rest
  | b, .file name :: rest => !b && name.head? != some '-' && ok_items true rest

/-- The option strings that `parse_args` recognises. -/
def known_options : List CStr :=
  [['-', '-', 'h', 'e', 'l', 'p'], ['-', 'w'], ['-', 'h'], ['-', 'f']]

/-! ### The export buffer `fb_content` (lines 77, 166-170, 204-216, 251-259) -/

/-- C `malloc(size)`: whether the allocator finds memory is not decided by the program,
so the outcome is an input; `none` is `NULL`, `some size` a fresh block of `size` bytes. -/
def malloc (size : Int) (succeeds : Bool) : Option Int :=
  if succeeds then some size else none

/-- The keys polled in one pass of the main loop. -/
structure Keys where
  escape : Bool
  r : Bool
  e : Bool
deriving DecidableEq, Repr

/-- The part of the state of `main` that the export path reads and writes: the global
`fb_content` (`none` is `NULL`, `some n` a block of `n` bytes) and the counter `CurFrame`. -/
structure RunState where
  fb_content : Option Int
  CurFrame : Nat
deriving DecidableEq, Repr

/-- The events that touch the export buffer. -/
inductive Event where
  /-- Lines 166-170 of `main`, with the parsed arguments and the outcome of `malloc`. -/
  | startup (args : canvargs_t) (malloc_ok : Bool)
  /-- A call of `resize_callback(window, width, height)`, with the outcome of `malloc`. -/
  | resize (width height : Int) (malloc_ok : Bool)
  /-- One pass of the main loop, with the keys pressed and the framebuffer size that
  `glfwGetFramebufferSize` reports. -/
  | frame (keys : Keys) (fb_width fb_height : Int)
deriving DecidableEq, Repr

/-- What the export path does that can be observed. -/
inductive Action where
  /-- The line `"WARNING: Export functionality is disabled!\n"` on `stderr`. -/
  | warning
  /-- A call `stbi_write_png(frame_name, width, height, 3, fb_content, stride)` where
  `frame_name` is made from the frame counter. -/
  | export (frame : Nat) (width height stride : Int)
deriving DecidableEq, Repr

/-- The statements `fb_content = malloc(stride * h); if (fb_content == NULL) fprintf(...)`
shared by start-up and `resize_callback`. -/
def allocate_fb (s : RunState) (width height : Int) (malloc_ok : Bool) :
    RunState × List Action :=
  let fb := malloc (stride width * height) malloc_ok
  ({ s with fb_content := fb }, if fb = none then [.warning] else [])

/-- The function `resize_callback(window, width, height)`, without its call of
`glViewport`, which does not touch the export buffer. -/
def resize_callback (s : RunState) (width height : Int) (malloc_ok : Bool) :
    RunState × List Action :=
  allocate_fb s width height malloc_ok

/-- The effect of one event on the export state. A reload (key R) is modelled by
`main_compile`; it does not touch `fb_content`. -/
def step (s : RunState) : Event → RunState × List Action
  | .startup args ok => allocate_fb s args.width args.height ok
  | .resize width height ok => resize_callback s width height ok
  | .frame keys w h =>
    let out :=
      if keys.e && s.fb_content != none then [Action.export s.CurFrame w h (stride w)] else []
    ({ s with CurFrame := s.CurFrame + 1 }, out)

/-- The events of a run, in order. -/
def run (s : RunState) : List Event → RunState × List Action
  | [] => (s, [])
  | ev :: rest =>
    let (s1, out1) := step s ev
    let (s2, out2) := run s1 rest
    (s2, out1 ++ out2)

abbrev GLuint := Nat
abbrev GLenum := Nat

/-- The GL enumerants named in `canvas.c`, with their values in the OpenGL registry. -/
def GL_FRAGMENT_SHADER : GLenum := 0x8B30
def GL_VERTEX_SHADER : GLenum := 0x8B31
def GL_PROGRAM : GLenum := 0x82E2

/-- The constant `vshader_src`. -/
def vshader_src : CStr :=
  ("#version 440 core\nlayout(location = 0) in vec2 aPos;\nout vec2 UV;\nvoid main() \x7b\ngl_Position = vec4(aPos, 0.0f, 1.0f);\nUV = aPos / 2.0f + 0.5f;\n\x7d\n").toList

/-- The constant `default_fshader_src`. -/
def default_fshader_src : CStr :=
  ("#version 440 core\nin vec2 UV;\nout vec4 FragColor;\nvoid main() \x7b\nFragColor = vec4(UV, 0.0f, 1.0f);\n\x7d\n").toList

/-- An object of the GL context. Shader and program names share one name space. -/
inductive GLObject where
  | shader (stype : GLenum) (source : CStr) (compile_status : Bool) (info_log : CStr)
      (delete_pending : Bool)
  | program (attached : List GLuint) (link_status : Bool) (info_log : CStr)
deriving DecidableEq, Repr

/-- The GL implementation's compiler and linker: what they answer is not decided by
`canvas.c`. `link` receives the kind and source of the attached shaders. -/
structure Driver where
  compile : GLenum → CStr → Bool × CStr
  link : List (GLenum × CStr) → Bool × CStr

/-- The live objects of the GL context, oldest first, and the next unused name. -/
structure GLContext where
  objects : List (GLuint × GLObject)
  next_name : GLuint
deriving DecidableEq, Repr

/-- A context without objects; names start at 1 because 0 is never an object name. -/
def GLContext.empty : GLContext :=
  { objects := [], next_name := 1 }

/-- The object with this name, if it is live. -/
def GLContext.lookup (gl : GLContext) (name : GLuint) : Option GLObject :=
  (gl.objects.find? (fun p => p.1 == name)).map (fun p => p.2)

/-- Replace the object with this name. -/
def GLContext.update (gl : GLContext) (name : GLuint) (f : GLObject → GLObject) : GLContext :=
  { gl with objects := gl.objects.map (fun p => if p.1 == name then (p.1, f p.2) else p) }

/-- The names of the live program objects, oldest first. -/
def GLContext.programs (gl : GLContext) : List GLuint :=
  gl.objects.filterMap (fun p =>
    match p.2 with
    | .program _ _ _ => some p.1
    | .shader _ _ _ _ _ => none)

/-- GL `glCreateShader(stype)`: a new shader object under an unused name. -/
def glCreateShader (gl : GLContext) (stype : GLenum) : GLContext × GLuint :=
  ({ objects := gl.objects ++ [(gl.next_name, .shader stype [] false [] false)],
     next_name := gl.next_name + 1 }, gl.next_name)

/-- GL `glShaderSource(sid, 1, &source, NULL)`. -/
def glShaderSource (gl : GLContext) (sid : GLuint) (source : CStr) : GLContext :=
  gl.update sid (fun o =>
    match o with
    | .shader t _ c l d => .shader t source c l d
    | o => o)

/-- GL `glCompileShader(sid)`: status and log are the driver's answer on the source. -/
def glCompileShader (drv : Driver) (gl : GLContext) (sid : GLuint) : GLContext :=
  gl.update sid (fun o =>
    match o with
    | .shader t s _ _ d => .shader t s (drv.compile t s).1 (drv.compile t s).2 d
    | o => o)

/-- GL `glCreateProgram()`: a new program object under an unused name. -/
def glCreateProgram (gl : GLContext) : GLContext × GLuint :=
  ({ objects := gl.objects ++ [(gl.next_name, .program [] false [])],
     next_name := gl.next_name + 1 }, gl.next_name)

/-- GL `glAttachShader(pid, sid)`. -/
def glAttachShader (gl : GLContext) (pid sid : GLuint) : GLContext :=
  gl.update pid (fun o =>
    match o with
    | .program att ls l => .program (att ++ [sid]) ls l
    | o => o)

/-- The kind, source and compile status of the shaders attached to a program. -/
def attached_shaders (gl : GLContext) (att : List GLuint) : List (GLenum × CStr × Bool) :=
  att.filterMap (fun sid =>
    match gl.lookup sid with
    | some (.shader t s c _ _) => some (t, s, c)
    | _ => none)

/-- GL `glLinkProgram(pid)`: linking fails when an attached shader is not compiled, and
otherwise status and log are the driver's answer. -/
def glLinkProgram (drv : Driver) (gl : GLContext) (pid : GLuint) : GLContext :=
  gl.update pid (fun o =>
    match o with
    | .program att _ _ =>
      let shaders := attached_shaders gl att
      let answer := drv.link (shaders.map (fun x => (x.1, x.2.1)))
      .program att (shaders.all (fun x => x.2.2) && answer.1) answer.2
    | o => o)

/-- GL `glDeleteShader(sid)`: a shader attached to a program is only flagged for deletion,
any other shader is deleted. -/
def glDeleteShader (gl : GLContext) (sid : GLuint) : GLContext :=
  let is_attached := gl.objects.any (fun p =>
    match p.2 with
    | .program att _ _ => att.contains sid
    | .shader _ _ _ _ _ => false)
  if is_attached then
    gl.update sid (fun o =>
      match o with
      | .shader t s c l _ => .shader t s c l true
      | o => o)
  else
    { gl with objects := gl.objects.filter (fun p =>
        match p.2 with
        | .shader _ _ _ _ _ => p.1 != sid
        | .program _ _ _ => true) }

/-- GL `glGetShaderiv(sid, GL_COMPILE_STATUS, &succ)`: the value written to `succ`.
When `sid` does not name a shader object (a program object, for one) the call raises a
GL error and writes nothing: `none`. -/
def glGetShaderiv_compile_status (gl : GLContext) (sid : GLuint) : Option Int :=
  match gl.lookup sid with
  | some (.shader _ _ c _ _) => some (if c then 1 else 0)
  | _ => none

/-- GL `glGetShaderInfoLog(sid, 4096, NULL, log)`: the text written to `log`, or `none`
when `sid` does not name a shader object and nothing is written. -/
def glGetShaderInfoLog (gl : GLContext) (sid : GLuint) : Option CStr :=
  match gl.lookup sid with
  | some (.shader _ _ _ l _) => some (l.take 4095)
  | _ => none

/-- The contents that the automatic variables `succ` and `log` of
`check_compile_errors` have on entry; the function does not initialise them. -/
structure Locals where
  succ : Int
  log : CStr
deriving DecidableEq, Repr

/-- The four `fprintf` calls of `check_compile_errors`: `"Error compiling %s.\n"` with
`type_str` (left unset by the `switch` for other kinds: `none`) and the log between
separator lines. -/
structure Diagnostic where
  type_str : Option CStr
  log : CStr
deriving DecidableEq, Repr

/-- The function `check_compile_errors(sid, stype)`. -/
def check_compile_errors (gl : GLContext) (sid : GLuint) (stype : GLenum) (locals : Locals) :
    Bool × List Diagnostic :=
  let succ := (glGetShaderiv_compile_status gl sid).getD locals.succ
  if succ = 0 then
    let type_str : Option CStr :=
      if stype = GL_VERTEX_SHADER then some "vertex shader".toList
      else if stype = GL_FRAGMENT_SHADER then some "fragment shader".toList
      else if stype = GL_PROGRAM then some "shader program".toList
      else none
    let log := (glGetShaderInfoLog gl sid).getD locals.log
    (false, [{ type_str := type_str, log := log }])
  else
    (true, [])

/-- What `compile_shader` and `compile_program` leave behind: the value returned, the
name stored through the pointer, the GL context and the text written to `stderr`. -/
structure Compiled where
  ok : Bool
  id : GLuint
  gl : GLContext
  out : List Diagnostic
deriving DecidableEq, Repr

/-- The function `compile_shader(sid, source, stype)`. -/
def compile_shader (drv : Driver) (gl : GLContext) (source : CStr) (stype : GLenum)
    (locals : Locals) : Compiled :=
  let (gl1, sid) := glCreateShader gl stype
  let gl2 := glShaderSource gl1 sid source
  let gl3 := glCompileShader drv gl2 sid
  let (ok, out) := check_compile_errors gl3 sid stype locals
  { ok := ok, id := sid, gl := gl3, out := out }

/-- The function `compile_program(pid, vid, fid)`. -/
def compile_program (drv : Driver) (gl : GLContext) (vid fid : GLuint) (locals : Locals) :
    Compiled :=
  let (gl1, pid) := glCreateProgram gl
  let gl2 := glAttachShader gl1 pid vid
  let gl3 := glAttachShader gl2 pid fid
  let gl4 := glLinkProgram drv gl3 pid
  let (ok, out) := check_compile_errors gl4 pid GL_PROGRAM locals
  { ok := ok, id := pid, gl := gl4, out := out }

/-- How the block "Compile shaders" of `main` ends. -/
inductive Built where
  /-- One of the three checks failed and `main` called `exit(-1)`. -/
  | exited (code : Int) (out : List Diagnostic)
  /-- The block ran to its end; `pid` is the program that the loop will use. -/
  | linked (gl : GLContext) (pid : GLuint)
deriving DecidableEq, Repr

/-- The inputs of one run of the block "Compile shaders": the fragment source in use
(`fshader_src`) and the entry contents of the locals of the three checks. -/
structure Build where
  fshader_src : CStr
  vertex_locals : Locals
  fragment_locals : Locals
  program_locals : Locals
deriving DecidableEq, Repr

/-- The block "Compile shaders" of `main` (lines 134-142 at start-up, lines 193-200 on
key R): two `compile_shader`, `compile_program`, two `glDeleteShader`. The value that
`pid` had before is overwritten. -/
def main_compile (drv : Driver) (gl : GLContext) (b : Build) : Built :=
  let v := compile_shader drv gl vshader_src GL_VERTEX_SHADER b.vertex_locals
  if !v.ok then .exited (-1) v.out
  else
    let f := compile_shader drv v.gl b.fshader_src GL_FRAGMENT_SHADER b.fragment_locals
    if !f.ok then .exited (-1) f.out
    else
      let p := compile_program drv f.gl v.id f.id b.program_locals
      if !p.ok then .exited (-1) p.out
      else .linked (glDeleteShader (glDeleteShader p.gl v.id) f.id) p.id

/-- A sequence of reloads from a context `gl` with active program `pid`; `none` when
one of them ends the process. -/
def reloads (drv : Driver) (gl : GLContext) (pid : GLuint) : List Build → Option (GLContext × GLuint)
  | [] => some (gl, pid)
  | b :: rest =>
    match main_compile drv gl b with
    | .exited _ _ => none
    | .linked gl1 pid1 => reloads drv gl1 pid1 rest

/-- Start-up followed by a sequence of reloads. -/
def startup_then_reloads (drv : Driver) (first : Build) (rs : List Build) :
    Option (GLContext × GLuint) :=
  match main_compile drv GLContext.empty first with
  | .exited _ _ => none
  | .linked gl pid => reloads drv gl pid rs

/-- A driver that compiles and links everything. -/
def accepting_driver : Driver :=
  { compile := fun _ _ => (true, []), link := fun _ => (true, []) }

/-- A fragment shader that compiles but declares `UV` with another type than the vertex
shader, so that linking the two stages fails. -/
def mismatched_fshader_src : CStr :=
  ("#version 440 core\nin vec3 UV;\nout vec4 FragColor;\nvoid main() \x7b\nFragColor = vec4(UV, 1.0f);\n\x7d\n").toList

/-- Whether an object is a program object. -/
def GLObject.is_program : GLObject → Bool
  | .program _ _ _ => true
  | .shader _ _ _ _ _ => false

/-- A driver that compiles everything and links nothing. -/
def link_failing_driver : Driver :=
  { compile := fun _ _ => (true, []),
    link := fun _ => (false, "error: UV has different types in the two stages".toList) }

/-! ### `load_file` (lines 308-343) -/

/-- A byte of memory; `none` is an indeterminate value (memory that `realloc` added). -/
abbrev Cell := Option Nat

/-- A C pointer into the heap: a block and an offset in it. -/
structure Ptr where
  block : Nat
  offset : Nat
deriving DecidableEq, Repr

/-- The heap: the blocks handed out so far, by number; `none` is a block that was freed. -/
structure Heap where
  blocks : List (Option (List Cell))
deriving DecidableEq, Repr

/-- How a call of `realloc` ends; which one happens is decided by the allocator. -/
inductive ReallocOutcome where
  /-- No memory: `NULL` is returned and the old block is left as it is. -/
  | fails
  /-- The block is resized where it is and the same pointer is returned. -/
  | in_place
  /-- A new block receives the contents, the old block is freed, and the new pointer is
  returned. -/
  | moves
deriving DecidableEq, Repr

/-- The decisions of the allocator during one call of `load_file`: whether `calloc` finds
memory and how the `k`-th call of `realloc` ends. -/
structure Allocator where
  calloc_ok : Bool
  realloc : Nat → ReallocOutcome

/-- C `calloc(n, 1)` when memory is found: a new block of `n` zero bytes. -/
def calloc (h : Heap) (n : Nat) : Heap × Ptr :=
  ({ blocks := h.blocks ++ [some (List.replicate n (some 0))] }, ⟨h.blocks.length, 0⟩)

/-- The first `n` cells of a block resized to `n` cells; added cells are indeterminate. -/
def resize_cells (cells : List Cell) (n : Nat) : List Cell :=
  (cells ++ List.replicate (n - cells.length) none).take n

/-- C `realloc(p, n)` for a pointer `p` to the start of a live block. -/
def realloc (h : Heap) (p : Ptr) (n : Nat) : ReallocOutcome → Heap × Option Ptr
  | .fails => (h, none)
  | .in_place =>
    match h.blocks[p.block]? with
    | some (some cells) =>
      ({ blocks := h.blocks.set p.block (some (resize_cells cells n)) }, some p)
    | _ => (h, none)
  | .moves =>
    match h.blocks[p.block]? with
    | some (some cells) =>
      ({ blocks := (h.blocks.set p.block none) ++ [some (resize_cells cells n)] },
        some ⟨h.blocks.length, 0⟩)
    | _ => (h, none)

/-- The assignment `*p = v`; `none` when `p` does not point into a live block (a freed
block, or an offset at or past the size of the block): undefined behaviour. -/
def Heap.store (h : Heap) (p : Ptr) (v : Nat) : Option Heap :=
  match h.blocks[p.block]? with
  | some (some cells) =>
    if p.offset < cells.length then
      some { blocks := h.blocks.set p.block (some (cells.set p.offset (some v))) }
    else none
  | _ => none

/-- The bytes `data` stored one after the other from `p` on. -/
def Heap.store_bytes (h : Heap) (p : Ptr) : List Nat → Option Heap
  | [] => some h
  | b :: rest =>
    match h.store p b with
    | none => none
    | some h1 => h1.store_bytes ⟨p.block, p.offset + 1⟩ rest

/-- C `fread(p, 1, count, stream)` on a stream with the bytes `stream` left: the heap
after the bytes read were stored, the number of bytes read and the bytes left. -/
def fread (h : Heap) (p : Ptr) (count : Nat) (stream : List Nat) :
    Option (Heap × Nat × List Nat) :=
  match h.store_bytes p (stream.take count) with
  | none => none
  | some h1 => some (h1, (stream.take count).length, stream.drop count)

/-- How a call of `load_file` ends. -/
inductive Loaded where
  /-- The function returned `true`, with `*content` equal to `content`. -/
  | returned (h : Heap) (content : Ptr)
  /-- The process was terminated by `exit(code)`. -/
  | exited (code : Int)
  /-- A store outside a live block: undefined behaviour. -/
  | fault
deriving DecidableEq, Repr

/-- The literal `4096` of `load_file`: the size of the first allocation, of each read and
of each growth step. -/
def chunk : Nat := 4096

/-- The `while` loop of `load_file` and the statement `block[bsize] = 0` after it, for at
most `fuel` calls of `fread`; `k` counts the calls of `realloc` made so far. As in the
source, `block` is advanced by 4096 and is not recomputed from `*content`. -/
def load_loop (alloc : Allocator) :
    Nat → Heap → Ptr → Ptr → Nat → Nat → List Nat → Option Loaded
  | 0, _, _, _, _, _, _ => none
  | fuel + 1, h, content, block, csize, k, stream =>
    match fread h block chunk stream with
    | none => some .fault
    | some (h1, bsize, stream1) =>
      if bsize = chunk then
        match realloc h1 content (csize + chunk) (alloc.realloc k) with
        | (_, none) => some (.exited (-1))
        | (h2, some content1) =>
          load_loop alloc fuel h2 content1 ⟨block.block, block.offset + chunk⟩
            (csize + chunk) (k + 1) stream1
      else
        match h1.store ⟨block.block, block.offset + bsize⟩ 0 with
        | none => some .fault
        | some h2 => some (.returned h2 content)

/-- The function `load_file(filename, content)`; `file` is the byte sequence that `fopen`
and `fread` deliver, `none` when the file cannot be opened. Every call of `fread` but the
last reads 4096 bytes, so `file.length / 4096 + 1` calls reach the end of the file. -/
def load_file (alloc : Allocator) (h : Heap) (file : Option (List Nat)) : Option Loaded :=
  match file with
  | none => some (.exited (-1))
  | some bytes =>
    if alloc.calloc_ok then
      let (h1, content) := calloc h chunk
      load_loop alloc (bytes.length / chunk + 1) h1 content content chunk 0 bytes
    else some (.exited (-1))

/-- The `n` cells from `p` on, or `none` when they are not all inside a live block. -/
def Heap.read (h : Heap) (p : Ptr) (n : Nat) : Option (List Cell) :=
  match h.blocks[p.block]? with
  | some (some cells) =>
    if p.offset + n ≤ cells.length then some ((cells.drop p.offset).take n) else none
  | _ => none

/-- An allocator that always finds memory and resizes every block where it is. -/
def in_place_allocator : Allocator :=
  { calloc_ok := true, realloc := fun _ => .in_place }

/-- An allocator that always finds memory and moves every block that grows. -/
def moving_allocator : Allocator :=
  { calloc_ok := true, realloc := fun _ => .moves }

/-- A heap without blocks. -/
def Heap.empty : Heap :=
  { blocks := [] }

/-! ## Theorems -/

/-! ### Row stride -/

/-- For `W ≥ 0` the specified stride is `3*W` rounded up to the next multiple of 4. -/
theorem stride_spec_is_round_up (W : Int) (hW : 0 ≤ W) :
    4 ∣ stride_spec W ∧ 3 * W ≤ stride_spec W ∧ stride_spec W < 3 * W + 4 := by
  have h : Int.tdiv (3 * W + 3) 4 = (3 * W + 3) / 4 :=
    Int.tdiv_eq_ediv (by omega) (by norm_num)
  unfold stride_spec
  rw [h]
  refine ⟨Dvd.intro_left _ rfl, ?_, ?_⟩ <;> omega

theorem to_int32_of_range (x : Int) (lo : -2147483648 ≤ x) (hi : x ≤ 2147483647) :
    to_int32 x = x := by
  unfold to_int32
  omega

theorem stride_eq_cases (W : Int) (hW : 0 ≤ W) (hmax : W ≤ max_width) :
    ((3 * W) % 4 = 0 → stride W = stride_spec W) ∧
    ((3 * W) % 4 = 1 → stride W = stride_spec W) ∧
    ((3 * W) % 4 = 2 → stride W = stride_spec W + 2) ∧
    ((3 * W) % 4 = 3 → stride W = stride_spec W + 2) := by
  unfold max_width at hmax
  have h : Int.tdiv (3 * W + 3) 4 = (3 * W + 3) / 4 :=
    Int.tdiv_eq_ediv (by omega) (by norm_num)
  have hm : Int.tmod (3 * W) 4 = (3 * W) % 4 := Int.tmod_eq_emod (by omega) (by norm_num)
  have e1 : to_int32 (3 * W) = 3 * W := to_int32_of_range _ (by omega) (by omega)
  unfold stride stride_spec
  simp only [h, e1, hm]
  refine ⟨?_, ?_, ?_, ?_⟩ <;> intro h4 <;> rw [h4] <;>
    rw [to_int32_of_range _ (by omega) (by omega)] <;> omega

/-- The bound `max_width` is the last width without overflow: one more and the sum of
the second source line leaves the range of `int` and is truncated to a negative value. -/
theorem stride_overflows_past_max_width :
    stride max_width = 2147483646 ∧ stride (max_width + 1) = -2147483646 := by
  decide

/-- C2: at framebuffer width 1 the stride computed by the code is 6, while `3*W`
rounded up to the next multiple of 4 is 4; the computed stride is not a multiple of 4. -/
theorem stride_width_one_not_round_up :
    stride 1 = 6 ∧ stride_spec 1 = 4 ∧ ¬ (4 : Int) ∣ stride 1 := by
  decide

/-- C10, as stated, fails: at width 3 the remainder of `3*W` by 4 is 1, not 0, and the
literal formula yields exactly the rounded-up stride, so not every such width is inflated. -/
theorem stride_not_always_inflated :
    ¬ (∀ W : Int, 0 ≤ W → Int.tmod (3 * W) 4 ≠ 0 → stride_spec W < stride W) := by
  intro h
  exact absurd (h 3 (by decide) (by decide)) (by decide)

/-- C10, amended: for `0 ≤ W ≤ 715827881` (the widths for which the two source lines
do not overflow a 32-bit `int`), when `3*W` leaves remainder 2 or 3 modulo 4 the literal
formula yields the rounded-up stride plus 2 (strictly greater, and not a multiple of 4);
when the remainder is 1 it yields exactly the rounded-up stride. -/
theorem stride_inflated_iff_rem_two_or_three (W : Int) (hW : 0 ≤ W) (hmax : W ≤ max_width) :
    (Int.tmod (3 * W) 4 = 2 ∨ Int.tmod (3 * W) 4 = 3 →
      stride W = stride_spec W + 2 ∧ stride_spec W < stride W ∧ ¬ (4 : Int) ∣ stride W) ∧
    (Int.tmod (3 * W) 4 = 1 → stride W = stride_spec W) := by
  have hm : Int.tmod (3 * W) 4 = (3 * W) % 4 := Int.tmod_eq_emod (by omega) (by norm_num)
  obtain ⟨_, h1, h2, h3⟩ := stride_eq_cases W hW hmax
  obtain ⟨hd, _, _⟩ := stride_spec_is_round_up W hW
  rw [hm]
  constructor
  · intro h
    have e : stride W = stride_spec W + 2 := by
      rcases h with h | h
      · exact h2 h
      · exact h3 h
    refine ⟨e, by omega, ?_⟩
    rw [e]
    intro hd2
    have : (4 : Int) ∣ 2 := (Int.dvd_add_right hd).mp hd2
    omega
  · exact h1

theorem stride_inflated_iff_rem_two_or_three_witness :
    (0 : Int) ≤ 2 ∧ (2 : Int) ≤ max_width ∧
    ((Int.tmod (3 * 2) 4 = 2 ∨ Int.tmod (3 * 2) 4 = 3 →
      stride 2 = stride_spec 2 + 2 ∧ stride_spec 2 < stride 2 ∧ ¬ (4 : Int) ∣ stride 2) ∧
    (Int.tmod (3 * 2) 4 = 1 → stride 2 = stride_spec 2)) :=
  ⟨by decide, by decide, stride_inflated_iff_rem_two_or_three 2 (by decide) (by decide)⟩

/-! ### `parse_args` -/

theorem digit_char_facts (d : Nat) (hd : d < 10) :
    isdigit (digit_char d) = true ∧ (digit_char d).toNat - 48 = d ∧
    digit_char d ≠ '-' ∧ digit_char d ≠ '+' ∧ isspace (digit_char d) = false := by
  interval_cases d <;> decide

theorem digits_value_append (xs ys : List Char) (hx : ∀ c ∈ xs, isdigit c = true) (v : Nat) :
    digits_value (xs ++ ys) v = digits_value ys (digits_value xs v) := by
  induction xs generalizing v with
  | nil => rfl
  | cons c cs ih =>
    have hc : isdigit c = true := hx c (List.mem_cons_self _ _)
    simp only [List.cons_append, digits_value, hc, if_true]
    exact ih (fun c hc => hx c (List.mem_cons_of_mem _ hc)) _

theorem decimal_aux_spec (fuel : Nat) : ∀ (n : Nat) (acc : List Char), n < fuel →
    ∃ c ds, decimal_aux fuel n acc = c :: ds ++ acc ∧ (∀ x ∈ c :: ds, isdigit x = true) ∧
      c ≠ '-' ∧ c ≠ '+' ∧ isspace c = false ∧
      ∀ v, digits_value (c :: ds) v = v * 10 ^ (ds.length + 1) + n := by
  induction fuel with
  | zero => intro n acc h; omega
  | succ f ih =>
    intro n acc h
    by_cases hn : n < 10
    · obtain ⟨h1, h2, h3, h4, h5⟩ := digit_char_facts n hn
      refine ⟨digit_char n, [], ?_, ?_, h3, h4, h5, ?_⟩
      · simp [decimal_aux, hn]
      · simp [h1]
      · intro v
        simp [digits_value, h1, h2]
        ring
    · obtain ⟨c, ds, e, hall, h3, h4, h5, hv⟩ :=
        ih (n / 10) (digit_char (n % 10) :: acc) (by omega)
      obtain ⟨g1, g2, _, _, _⟩ := digit_char_facts (n % 10) (Nat.mod_lt _ (by norm_num))
      refine ⟨c, ds ++ [digit_char (n % 10)], ?_, ?_, h3, h4, h5, ?_⟩
      · simp [decimal_aux, hn, e]
      · intro x hx
        simp only [List.mem_cons, List.mem_append, List.mem_singleton, List.not_mem_nil,
          or_false] at hx
        rcases hx with hx | hx | hx
        · exact hall x (by simp [hx])
        · exact hall x (by simp [hx])
        · rw [hx]; exact g1
      · intro v
        have := digits_value_append (c :: ds) [digit_char (n % 10)] hall v
        rw [List.cons_append] at this
        rw [this, hv v]
        simp only [digits_value, g1, g2, if_true, List.length_append, List.length_singleton]
        have hdm := Nat.div_add_mod n 10
        rw [pow_succ (10 : Nat) (ds.length + 1)]
        generalize 10 ^ (ds.length + 1) = p
        have hmul : v * (p * 10) = 10 * (v * p) := by ring
        rw [hmul]
        omega

theorem atoi_decimal (a : Int) (ha : in_int_range a) : atoi (decimal a) = a := by
  obtain ⟨c, ds, e, _, h3, h4, h5, hv⟩ :=
    decimal_aux_spec (a.natAbs + 1) a.natAbs [] (Nat.lt_succ_self _)
  have hv0 := hv 0
  simp only [zero_mul, zero_add] at hv0
  obtain ⟨lo, hi⟩ := ha
  unfold decimal decimal_nat
  rw [e, List.append_nil]
  by_cases hneg : a < 0
  · have hs : isspace '-' = false := by decide
    simp only [hneg, if_true, atoi, List.dropWhile, hs, hv0, to_int32]
    omega
  · simp only [hneg, if_false, atoi, List.dropWhile, h5, h3, h4, hv0, to_int32]
    omega

theorem getElem?_at_length {α : Type} (pre : List α) (x : α) (rest : List α) :
    (pre ++ x :: rest)[pre.length]? = some x := by
  induction pre with
  | nil => simp
  | cons p ps ih => simpa using ih

theorem getElem?_after_length {α : Type} (pre : List α) (x y : α) (rest : List α) :
    (pre ++ x :: y :: rest)[pre.length + 1]? = some y := by
  induction pre with
  | nil => simp
  | cons p ps ih => simpa using ih

theorem lt_length_of_getElem? {α : Type} (argv : List α) (i : Nat) (x : α)
    (h : argv[i]? = some x) : i < argv.length := by
  rcases Nat.lt_or_ge i argv.length with hl | hl
  · exact hl
  · rw [List.getElem?_eq_none hl] at h; cases h

theorem parse_loop_mono (argv : List CStr) (fuel : Nat) :
    ∀ (a : canvargs_t) (i : Nat) (out : List Emit) (r : Outcome) (k : Nat),
      parse_loop argv fuel a i out = some r → parse_loop argv (fuel + k) a i out = some r := by
  induction fuel with
  | zero => intro a i out r k h; simp [parse_loop] at h
  | succ f ih =>
    intro a i out r k h
    rw [Nat.add_right_comm]
    unfold parse_loop at h ⊢
    by_cases hi : i < argv.length
    · simp only [hi, if_true] at h ⊢
      cases hb : parse_body argv a i with
      | next a1 i1 o =>
        rw [hb] at h
        exact ih _ _ _ _ _ h
      | exit c o => rw [hb] at h; exact h
      | fault => rw [hb] at h; exact h
    · simp only [hi, if_false] at h ⊢
      exact h

theorem parse_loop_stuck_f (argv : List CStr) (i : Nat)
    (h : argv[i]? = some ['-', 'f']) (fuel : Nat) :
    ∀ (a : canvargs_t) (out : List Emit), parse_loop argv fuel a i out = none := by
  have hi : i < argv.length := lt_length_of_getElem? argv i _ h
  induction fuel with
  | zero => intro a out; rfl
  | succ f ih =>
    intro a out
    have hb : parse_body argv a i = .next { a with fullscreen := true } i [] := by
      simp [parse_body, h]
    simp only [parse_loop, hi, if_true, hb]
    exact ih _ _

theorem parse_loop_stuck_unknown (argv : List CStr) (i : Nat) (x : CStr)
    (h : argv[i]? = some x) (hx : x.head? = some '-') (hk : x ∉ known_options)
    (fuel : Nat) :
    ∀ (a : canvargs_t) (out : List Emit), parse_loop argv fuel a i out = none := by
  have hi : i < argv.length := lt_length_of_getElem? argv i _ h
  simp only [known_options, List.mem_cons, List.mem_singleton, List.not_mem_nil, or_false,
    not_or] at hk
  obtain ⟨k1, k2, k3, k4⟩ := hk
  induction fuel with
  | zero => intro a out; rfl
  | succ f ih =>
    intro a out
    have hb : parse_body argv a i = .next a i [.invalid_option x, .usage argv.head? true] := by
      simp only [parse_body, h, hx, k1, k2, k3, k4, if_true, if_false]
    simp only [parse_loop, hi, if_true, hb]
    exact ih _ _

theorem ok_items_head (b : Bool) (it : Item) (rest : List Item)
    (h : ok_items b (it :: rest) = true) :
    ∃ b1, ok_items b1 rest = true ∧
      (∀ a : canvargs_t, a.fshader_file.isSome = b → (it.apply a).fshader_file.isSome = b1) ∧
      (∀ name, it = .file name → b = false ∧ name.head? ≠ some '-') := by
  cases it with
  | w v => exact ⟨b, h, fun a ha => ha, fun name hn => by cases hn⟩
  | h v => exact ⟨b, h, fun a ha => ha, fun name hn => by cases hn⟩
  | file name =>
    simp only [ok_items, Bool.and_eq_true, Bool.not_eq_true', bne_iff_ne, ne_eq] at h
    refine ⟨true, h.2, fun a _ => rfl, fun n hn => ?_⟩
    cases hn
    exact ⟨h.1.1, h.1.2⟩

theorem parse_loop_items (items : List Item) :
    ∀ (argv pre post : List CStr) (a : canvargs_t) (out : List Emit) (fuel : Nat),
      argv = pre ++ flat_args items ++ post →
      ok_items a.fshader_file.isSome items = true →
      parse_loop argv (fuel + items.length) a pre.length out =
        parse_loop argv fuel (items.foldl Item.apply a)
          (pre.length + (flat_args items).length) out := by
  induction items with
  | nil => intro argv pre post a out fuel _ _; simp [flat_args]
  | cons it rest ih =>
    intro argv pre post a out fuel hargv hok
    obtain ⟨b1, hrest, hb1, hfile⟩ := ok_items_head _ it rest hok
    have hlen : pre.length < argv.length := by
      rw [hargv]
      cases it <;> simp [flat_args, Item.args]
    have hstep : parse_body argv a pre.length =
        .next (it.apply a) (pre.length + it.args.length) [] := by
      cases it with
      | w v =>
        have g0 : argv[pre.length]? = some ['-', 'w'] := by
          rw [hargv]; simp only [flat_args, Item.args, List.append_assoc, List.cons_append,
            List.nil_append]
          exact getElem?_at_length _ _ _
        have g1 : argv[pre.length + 1]? = some v := by
          rw [hargv]; simp only [flat_args, Item.args, List.append_assoc, List.cons_append,
            List.nil_append]
          exact getElem?_after_length _ _ _ _
        simp [parse_body, g0, g1, Item.apply, Item.args]
      | h v =>
        have g0 : argv[pre.length]? = some ['-', 'h'] := by
          rw [hargv]; simp only [flat_args, Item.args, List.append_assoc, List.cons_append,
            List.nil_append]
          exact getElem?_at_length _ _ _
        have g1 : argv[pre.length + 1]? = some v := by
          rw [hargv]; simp only [flat_args, Item.args, List.append_assoc, List.cons_append,
            List.nil_append]
          exact getElem?_after_length _ _ _ _
        simp [parse_body, g0, g1, Item.apply, Item.args]
      | file name =>
        obtain ⟨hb, hname⟩ := hfile name rfl
        have g0 : argv[pre.length]? = some name := by
          rw [hargv]; simp only [flat_args, Item.args, List.append_assoc, List.cons_append,
            List.nil_append]
          exact getElem?_at_length _ _ _
        have hnone : a.fshader_file = none := by
          cases hf : a.fshader_file with
          | none => rfl
          | some x => rw [hf] at hb; cases hb
        simp [parse_body, g0, hname, hnone, Item.apply, Item.args]
    have hargv2 : argv = (pre ++ it.args) ++ flat_args rest ++ post := by
      rw [hargv]; simp [flat_args]
    have := ih argv (pre ++ it.args) post (it.apply a) out fuel hargv2
      (by rw [hb1 a rfl]; exact hrest)
    rw [List.length_cons, ← Nat.add_assoc]
    simp only [parse_loop, hlen, if_true, hstep, List.append_nil]
    rw [List.length_append] at this
    rw [this]
    simp [flat_args, Nat.add_assoc]

/-- A well-formed argument list is parsed to the end: the record returned is the
defaults updated by each item in turn, and nothing is written. -/
theorem parse_args_items (prog : CStr) (items : List Item) (fuel : Nat)
    (hok : ok_items false items = true) (hfuel : items.length < fuel) :
    parse_args fuel (prog :: flat_args items) =
      some (.returned (items.foldl Item.apply default_args) []) := by
  obtain ⟨k, rfl⟩ : ∃ k, fuel = (k + 1) + items.length := ⟨fuel - items.length - 1, by omega⟩
  unfold parse_args
  have := parse_loop_items items (prog :: flat_args items) [prog] [] default_args [] (k + 1)
    (by simp) hok
  simp only [List.length_singleton] at this
  rw [this]
  have hnot : ¬ (1 + (flat_args items).length < (prog :: flat_args items).length) := by
    simp only [List.length_cons]; omega
  simp only [parse_loop, hnot, if_false]


theorem foldl_apply_file_isSome (items : List Item) :
    ∀ a : canvargs_t, (a.fshader_file.isSome = true ∨ ∃ name, Item.file name ∈ items) →
      (items.foldl Item.apply a).fshader_file.isSome = true := by
  induction items with
  | nil =>
    intro a h
    rcases h with h | ⟨name, hn⟩
    · exact h
    · cases hn
  | cons it rest ih =>
    intro a h
    rw [List.foldl_cons]
    apply ih
    cases it with
    | w v =>
      rcases h with h | ⟨name, hn⟩
      · exact Or.inl h
      · rcases List.mem_cons.mp hn with e | e
        · cases e
        · exact Or.inr ⟨name, e⟩
    | h v =>
      rcases h with h | ⟨name, hn⟩
      · exact Or.inl h
      · rcases List.mem_cons.mp hn with e | e
        · cases e
        · exact Or.inr ⟨name, e⟩
    | file n => exact Or.inl rfl

/-- An argument on which the loop makes no progress, reached after well-formed items,
keeps `parse_args` from returning whatever the number of passes allowed. -/
theorem parse_args_stuck_after_items (prog : CStr) (items : List Item) (x : CStr)
    (rest : List CStr) (hok : ok_items false items = true)
    (hstuck : ∀ (argv : List CStr) (i : Nat), argv[i]? = some x →
      ∀ (fuel : Nat) (a : canvargs_t) (out : List Emit), parse_loop argv fuel a i out = none)
    (fuel : Nat) :
    parse_args fuel (prog :: flat_args items ++ x :: rest) = none := by
  cases hres : parse_args fuel (prog :: flat_args items ++ x :: rest) with
  | none => rfl
  | some r =>
    exfalso
    unfold parse_args at hres
    have hbig := parse_loop_mono _ fuel _ _ _ _ items.length hres
    have hrun := parse_loop_items items (prog :: flat_args items ++ x :: rest) [prog]
      (x :: rest) default_args [] fuel (by simp) hok
    simp only [List.length_singleton] at hrun
    rw [hrun] at hbig
    have hget : (prog :: flat_args items ++ x :: rest)[1 + (flat_args items).length]? =
        some x := by
      have := getElem?_at_length (prog :: flat_args items) x rest
      rw [List.length_cons, Nat.add_comm] at this
      simpa using this
    rw [hstuck _ _ hget] at hbig
    cases hbig

/-- C1: on every argument list that holds `-f` after well-formed arguments (pairs `-w V`,
`-h V` and at most one filename), whatever follows, the loop of `parse_args` is still
running after any number of passes: the function does not return. -/
theorem parse_args_fullscreen_never_returns (prog : CStr) (items : List Item)
    (rest : List CStr) (hok : ok_items false items = true) (fuel : Nat) :
    parse_args fuel (prog :: flat_args items ++ ['-', 'f'] :: rest) = none :=
  parse_args_stuck_after_items prog items _ rest hok
    (fun argv i h fuel a out => parse_loop_stuck_f argv i h fuel a out) fuel

theorem parse_args_fullscreen_never_returns_witness :
    ok_items false [Item.w ['8', '0', '0']] = true ∧
    parse_args 1000 [['c', 'a', 'n', 'v', 'a', 's'], ['-', 'w'], ['8', '0', '0'], ['-', 'f']]
      = none :=
  ⟨by decide,
   parse_args_fullscreen_never_returns ['c', 'a', 'n', 'v', 'a', 's'] [Item.w ['8', '0', '0']]
     [] (by decide) 1000⟩

/-- C8: on every argument list that holds an unrecognised option after well-formed
arguments, whatever follows, the loop of `parse_args` is still running after any number of
passes: it stays on the unrecognised option and the function does not return. -/
theorem parse_args_unknown_option_never_returns (prog : CStr) (items : List Item)
    (x : CStr) (rest : List CStr) (hok : ok_items false items = true)
    (hx : x.head? = some '-') (hk : x ∉ known_options) (fuel : Nat) :
    parse_args fuel (prog :: flat_args items ++ x :: rest) = none :=
  parse_args_stuck_after_items prog items x rest hok
    (fun argv i h fuel a out => parse_loop_stuck_unknown argv i x h hx hk fuel a out) fuel

theorem parse_args_unknown_option_never_returns_witness :
    ok_items false [] = true ∧ ['-', 'x'].head? = some '-' ∧ ['-', 'x'] ∉ known_options ∧
    parse_args 1000 [['c', 'a', 'n', 'v', 'a', 's'], ['-', 'x'], ['-', 'w'],
      ['1', '0', '2', '4']] = none :=
  ⟨by decide, by decide, by decide,
   parse_args_unknown_option_never_returns ['c', 'a', 'n', 'v', 'a', 's'] [] ['-', 'x']
     [['-', 'w'], ['1', '0', '2', '4']] (by decide) (by decide) (by decide) 1000⟩

/-- C7, as stated, fails: with `--help` in front of two positional filenames the process
ends with exit code 0, not -1. -/
theorem parse_args_help_before_two_filenames :
    parse_args 5 [['c', 'a', 'n', 'v', 'a', 's'], ['-', '-', 'h', 'e', 'l', 'p'],
      ['a', '.', 'f', 's'], ['b', '.', 'f', 's']] =
      some (.exited 0 [.usage (some ['c', 'a', 'n', 'v', 'a', 's']) false]) := by
  decide

/-- C7, amended: when the arguments in front of the second positional filename are only
pairs `-w V`, `-h V` and the first filename, `parse_args` ends the process with
`exit(-1)` after the message about multiple shaders, whatever follows. -/
theorem parse_args_second_filename_exits (prog : CStr) (items : List Item) (name2 : CStr)
    (rest : List CStr) (hok : ok_items false items = true)
    (hfile : ∃ name, Item.file name ∈ items) (hname2 : name2.head? ≠ some '-')
    (fuel : Nat) (hfuel : items.length < fuel) :
    parse_args fuel (prog :: flat_args items ++ name2 :: rest) =
      some (.exited (-1) [.multiple_shaders, .usage (some prog) true]) := by
  obtain ⟨k, rfl⟩ : ∃ k, fuel = (k + 1) + items.length := ⟨fuel - items.length - 1, by omega⟩
  unfold parse_args
  have hrun := parse_loop_items items (prog :: flat_args items ++ name2 :: rest) [prog]
    (name2 :: rest) default_args [] (k + 1) (by simp) hok
  simp only [List.length_singleton] at hrun
  rw [hrun]
  have hget : (prog :: flat_args items ++ name2 :: rest)[1 + (flat_args items).length]? =
      some name2 := by
    have := getElem?_at_length (prog :: flat_args items) name2 rest
    rw [List.length_cons, Nat.add_comm] at this
    simpa using this
  have hlt := lt_length_of_getElem? _ _ _ hget
  have hsome := foldl_apply_file_isSome items default_args (Or.inr hfile)
  obtain ⟨f1, hf1⟩ := Option.isSome_iff_exists.mp hsome
  have hb : parse_body (prog :: flat_args items ++ name2 :: rest)
      (items.foldl Item.apply default_args) (1 + (flat_args items).length) =
      .exit (-1) [.multiple_shaders, .usage (some prog) true] := by
    simp only [parse_body, hget, hname2, hf1, if_false]
    rfl
  simp only [parse_loop, hlt, if_true, hb, List.nil_append]

theorem parse_args_second_filename_exits_witness :
    ok_items false [Item.file ['a', '.', 'f', 's']] = true ∧
    (∃ name, Item.file name ∈ [Item.file ['a', '.', 'f', 's']]) ∧
    ['b', '.', 'f', 's'].head? ≠ some '-' ∧ 1 < 5 ∧
    parse_args 5 [['c', 'a', 'n', 'v', 'a', 's'], ['a', '.', 'f', 's'], ['b', '.', 'f', 's'],
      ['-', 'f']] =
      some (.exited (-1) [.multiple_shaders, .usage (some ['c', 'a', 'n', 'v', 'a', 's']) true]) :=
  ⟨by decide, ⟨_, List.mem_singleton.mpr rfl⟩, by decide, by decide,
   parse_args_second_filename_exits ['c', 'a', 'n', 'v', 'a', 's']
     [Item.file ['a', '.', 'f', 's']] ['b', '.', 'f', 's'] [['-', 'f']] (by decide)
     ⟨_, List.mem_singleton.mpr rfl⟩ (by decide) 5 (by decide)⟩


/-- C6: for integers `a`, `b` in the range of `int`, written in decimal, the argument
lists made of `-w a` and `-h b` in either order, with or without one filename at any
place, are parsed to width `a` and height `b`; an absent option leaves the default, and
without arguments the record is 800, 600, no file, not fullscreen. Nothing is written. -/
theorem parse_args_width_height (prog : CStr) (a b : Int) (ha : in_int_range a)
    (hb : in_int_range b) (fuel : Nat) (hfuel : 3 < fuel) :
    parse_args fuel [prog, ['-', 'w'], decimal a, ['-', 'h'], decimal b] =
      some (.returned ⟨a, b, none, false⟩ []) ∧
    parse_args fuel [prog, ['-', 'h'], decimal b, ['-', 'w'], decimal a] =
      some (.returned ⟨a, b, none, false⟩ []) ∧
    (∀ name : CStr, name.head? ≠ some '-' →
      parse_args fuel [prog, name, ['-', 'w'], decimal a, ['-', 'h'], decimal b] =
        some (.returned ⟨a, b, some name, false⟩ []) ∧
      parse_args fuel [prog, ['-', 'w'], decimal a, name, ['-', 'h'], decimal b] =
        some (.returned ⟨a, b, some name, false⟩ []) ∧
      parse_args fuel [prog, ['-', 'w'], decimal a, ['-', 'h'], decimal b, name] =
        some (.returned ⟨a, b, some name, false⟩ []) ∧
      parse_args fuel [prog, name, ['-', 'h'], decimal b, ['-', 'w'], decimal a] =
        some (.returned ⟨a, b, some name, false⟩ []) ∧
      parse_args fuel [prog, ['-', 'h'], decimal b, name, ['-', 'w'], decimal a] =
        some (.returned ⟨a, b, some name, false⟩ []) ∧
      parse_args fuel [prog, ['-', 'h'], decimal b, ['-', 'w'], decimal a, name] =
        some (.returned ⟨a, b, some name, false⟩ [])) ∧
    parse_args fuel [prog, ['-', 'w'], decimal a] =
      some (.returned ⟨a, 600, none, false⟩ []) ∧
    parse_args fuel [prog, ['-', 'h'], decimal b] =
      some (.returned ⟨800, b, none, false⟩ []) ∧
    parse_args fuel [prog] = some (.returned ⟨800, 600, none, false⟩ []) := by
  have ea := atoi_decimal a ha
  have eb := atoi_decimal b hb
  have run : ∀ items : List Item, ok_items false items = true → items.length ≤ 3 →
      parse_args fuel (prog :: flat_args items) =
        some (.returned (items.foldl Item.apply default_args) []) :=
    fun items hok hl => parse_args_items prog items fuel hok (by omega)
  refine ⟨?_, ?_, fun name hname => ⟨?_, ?_, ?_, ?_, ?_, ?_⟩, ?_, ?_, ?_⟩
  · have := run [.w (decimal a), .h (decimal b)] (by simp [ok_items]) (by simp)
    simpa [flat_args, Item.args, Item.apply, default_args, ea, eb] using this
  · have := run [.h (decimal b), .w (decimal a)] (by simp [ok_items]) (by simp)
    simpa [flat_args, Item.args, Item.apply, default_args, ea, eb] using this
  · have := run [.file name, .w (decimal a), .h (decimal b)] (by simp [ok_items, hname])
      (by simp)
    simpa [flat_args, Item.args, Item.apply, default_args, ea, eb] using this
  · have := run [.w (decimal a), .file name, .h (decimal b)] (by simp [ok_items, hname])
      (by simp)
    simpa [flat_args, Item.args, Item.apply, default_args, ea, eb] using this
  · have := run [.w (decimal a), .h (decimal b), .file name] (by simp [ok_items, hname])
      (by simp)
    simpa [flat_args, Item.args, Item.apply, default_args, ea, eb] using this
  · have := run [.file name, .h (decimal b), .w (decimal a)] (by simp [ok_items, hname])
      (by simp)
    simpa [flat_args, Item.args, Item.apply, default_args, ea, eb] using this
  · have := run [.h (decimal b), .file name, .w (decimal a)] (by simp [ok_items, hname])
      (by simp)
    simpa [flat_args, Item.args, Item.apply, default_args, ea, eb] using this
  · have := run [.h (decimal b), .w (decimal a), .file name] (by simp [ok_items, hname])
      (by simp)
    simpa [flat_args, Item.args, Item.apply, default_args, ea, eb] using this
  · have := run [.w (decimal a)] (by simp [ok_items]) (by simp)
    simpa [flat_args, Item.args, Item.apply, default_args, ea, eb] using this
  · have := run [.h (decimal b)] (by simp [ok_items]) (by simp)
    simpa [flat_args, Item.args, Item.apply, default_args, ea, eb] using this
  · have := run [] (by simp [ok_items]) (by simp)
    simpa [flat_args, Item.args, Item.apply, default_args, ea, eb] using this

theorem parse_args_width_height_witness :
    in_int_range 1024 ∧ in_int_range 768 ∧ 3 < 4 ∧
    parse_args 4 [['c', 'a', 'n', 'v', 'a', 's'], ['-', 'w'], ['1', '0', '2', '4'],
      ['-', 'h'], ['7', '6', '8']] = some (.returned ⟨1024, 768, none, false⟩ []) :=
  ⟨by decide, by decide, by decide,
   (parse_args_width_height ['c', 'a', 'n', 'v', 'a', 's'] 1024 768 (by decide) (by decide) 4
     (by decide)).1⟩

/-! ### The export buffer -/

theorem allocate_fb_failed (s : RunState) (w h : Int) :
    (allocate_fb s w h false).1.fb_content = none ∧
    (allocate_fb s w h false).2 = [.warning] ∧
    (allocate_fb s w h true).1.fb_content = some (stride w * h) := by
  simp [allocate_fb, malloc]

theorem programs_eq_filter (gl : GLContext) :
    gl.programs = (gl.objects.filter (fun p => p.2.is_program)).map (fun p => p.1) := by
  unfold GLContext.programs
  induction gl.objects with
  | nil => rfl
  | cons p ps ih =>
    obtain ⟨n, o⟩ := p
    cases o <;> simp [List.filterMap_cons, List.filter_cons, GLObject.is_program, ih]

theorem programs_update (gl : GLContext) (name : GLuint) (f : GLObject → GLObject)
    (hf : ∀ o, (f o).is_program = o.is_program) :
    (gl.update name f).programs = gl.programs ∧ (gl.update name f).next_name = gl.next_name := by
  refine ⟨?_, rfl⟩
  rw [programs_eq_filter, programs_eq_filter]
  unfold GLContext.update
  simp only
  induction gl.objects with
  | nil => rfl
  | cons p ps ih =>
    obtain ⟨n, o⟩ := p
    have ih2 := ih
    simp only [beq_iff_eq] at ih2 ⊢
    by_cases hn : n = name
    · cases ho : o.is_program with
      | true =>
        simp only [List.map_cons, List.filter_cons, hn, if_true, hf, ho]
        rw [ih2]
      | false =>
        simp only [List.map_cons, List.filter_cons, hn, if_true, hf, ho, Bool.false_eq_true,
          if_false]
        exact ih2
    · cases ho : o.is_program with
      | true =>
        simp only [List.map_cons, List.filter_cons, hn, if_false, if_true, ho]
        rw [ih2]
      | false =>
        simp only [List.map_cons, List.filter_cons, hn, if_false, ho, Bool.false_eq_true]
        exact ih2

theorem programs_glShaderSource (gl : GLContext) (sid : GLuint) (src : CStr) :
    (glShaderSource gl sid src).programs = gl.programs ∧
    (glShaderSource gl sid src).next_name = gl.next_name :=
  programs_update gl sid _ (fun o => by cases o <;> rfl)

theorem programs_glCompileShader (drv : Driver) (gl : GLContext) (sid : GLuint) :
    (glCompileShader drv gl sid).programs = gl.programs ∧
    (glCompileShader drv gl sid).next_name = gl.next_name :=
  programs_update gl sid _ (fun o => by cases o <;> rfl)

theorem programs_glAttachShader (gl : GLContext) (pid sid : GLuint) :
    (glAttachShader gl pid sid).programs = gl.programs ∧
    (glAttachShader gl pid sid).next_name = gl.next_name :=
  programs_update gl pid _ (fun o => by cases o <;> rfl)

theorem programs_glLinkProgram (drv : Driver) (gl : GLContext) (pid : GLuint) :
    (glLinkProgram drv gl pid).programs = gl.programs ∧
    (glLinkProgram drv gl pid).next_name = gl.next_name :=
  programs_update gl pid _ (fun o => by cases o <;> rfl)

theorem programs_glCreateShader (gl : GLContext) (stype : GLenum) :
    (glCreateShader gl stype).1.programs = gl.programs ∧
    (glCreateShader gl stype).1.next_name = gl.next_name + 1 ∧
    (glCreateShader gl stype).2 = gl.next_name := by
  refine ⟨?_, rfl, rfl⟩
  rw [programs_eq_filter, programs_eq_filter]
  simp [glCreateShader, List.filter_append, GLObject.is_program]

theorem programs_glCreateProgram (gl : GLContext) :
    (glCreateProgram gl).1.programs = gl.programs ++ [gl.next_name] ∧
    (glCreateProgram gl).1.next_name = gl.next_name + 1 ∧
    (glCreateProgram gl).2 = gl.next_name := by
  refine ⟨?_, rfl, rfl⟩
  rw [programs_eq_filter, programs_eq_filter]
  simp [glCreateProgram, List.filter_append, GLObject.is_program]

/-- The call `glDeleteShader` never releases a program object. -/
theorem programs_glDeleteShader (gl : GLContext) (sid : GLuint) :
    (glDeleteShader gl sid).programs = gl.programs ∧
    (glDeleteShader gl sid).next_name = gl.next_name := by
  unfold glDeleteShader
  simp only
  split
  · exact programs_update gl sid _ (fun o => by cases o <;> rfl)
  · refine ⟨?_, rfl⟩
    rw [programs_eq_filter, programs_eq_filter]
    simp only [List.filter_filter]
    congr 1
    apply List.filter_congr
    intro p _
    obtain ⟨n, o⟩ := p
    cases o <;> simp [GLObject.is_program]

theorem programs_compile_shader (drv : Driver) (gl : GLContext) (src : CStr) (stype : GLenum)
    (locals : Locals) :
    (compile_shader drv gl src stype locals).gl.programs = gl.programs ∧
    (compile_shader drv gl src stype locals).gl.next_name = gl.next_name + 1 := by
  obtain ⟨h1, h2, _⟩ := programs_glCreateShader gl stype
  simp only [compile_shader]
  rw [(programs_glCompileShader _ _ _).1, (programs_glCompileShader _ _ _).2,
    (programs_glShaderSource _ _ _).1, (programs_glShaderSource _ _ _).2]
  exact ⟨h1, h2⟩

theorem programs_compile_program (drv : Driver) (gl : GLContext) (vid fid : GLuint)
    (locals : Locals) :
    (compile_program drv gl vid fid locals).gl.programs = gl.programs ++ [gl.next_name] ∧
    (compile_program drv gl vid fid locals).gl.next_name = gl.next_name + 1 ∧
    (compile_program drv gl vid fid locals).id = gl.next_name := by
  obtain ⟨h1, h2, h3⟩ := programs_glCreateProgram gl
  simp only [compile_program]
  rw [(programs_glLinkProgram _ _ _).1, (programs_glLinkProgram _ _ _).2,
    (programs_glAttachShader _ _ _).1, (programs_glAttachShader _ _ _).2,
    (programs_glAttachShader _ _ _).1, (programs_glAttachShader _ _ _).2]
  exact ⟨h1, h2, h3⟩

/-- A run of the block "Compile shaders" that does not end the process adds one program
object, the one stored in `pid`, and releases none. -/
theorem programs_main_compile (drv : Driver) (gl gl1 : GLContext) (b : Build) (pid : GLuint)
    (h : main_compile drv gl b = .linked gl1 pid) :
    gl1.programs = gl.programs ++ [pid] ∧ pid = gl.next_name + 2 ∧
    gl1.next_name = gl.next_name + 3 := by
  unfold main_compile at h
  simp only at h
  split at h
  · cases h
  · split at h
    · cases h
    · split at h
      · cases h
      · injection h with hgl hpid
        obtain ⟨v1, v2⟩ := programs_compile_shader drv gl vshader_src GL_VERTEX_SHADER
          b.vertex_locals
        obtain ⟨f1, f2⟩ := programs_compile_shader drv
          (compile_shader drv gl vshader_src GL_VERTEX_SHADER b.vertex_locals).gl
          b.fshader_src GL_FRAGMENT_SHADER b.fragment_locals
        obtain ⟨p1, p2, p3⟩ := programs_compile_program drv
          (compile_shader drv
            (compile_shader drv gl vshader_src GL_VERTEX_SHADER b.vertex_locals).gl
            b.fshader_src GL_FRAGMENT_SHADER b.fragment_locals).gl
          (compile_shader drv gl vshader_src GL_VERTEX_SHADER b.vertex_locals).id
          (compile_shader drv
            (compile_shader drv gl vshader_src GL_VERTEX_SHADER b.vertex_locals).gl
            b.fshader_src GL_FRAGMENT_SHADER b.fragment_locals).id
          b.program_locals
        rw [← hgl, ← hpid]
        rw [(programs_glDeleteShader _ _).1, (programs_glDeleteShader _ _).2,
          (programs_glDeleteShader _ _).1, (programs_glDeleteShader _ _).2]
        rw [p1, p2, p3, f1, f2, v1, v2]
        exact ⟨rfl, rfl, rfl⟩

/-- Invariant of a sequence of reloads: every reload appends its program to the live
ones, which are all kept. -/
theorem programs_reloads (drv : Driver) (rs : List Build) :
    ∀ (gl gl1 : GLContext) (pid pid1 : GLuint),
      reloads drv gl pid rs = some (gl1, pid1) →
      gl.programs.getLast? = some pid →
      gl.programs.Nodup → (∀ n ∈ gl.programs, n < gl.next_name) →
      gl1.programs.length = gl.programs.length + rs.length ∧ gl1.programs.Nodup ∧
      gl1.programs.getLast? = some pid1 ∧ gl.programs <+: gl1.programs := by
  induction rs with
  | nil =>
    intro gl gl1 pid pid1 h hlast hnd _
    simp only [reloads, Option.some.injEq, Prod.mk.injEq] at h
    obtain ⟨rfl, rfl⟩ := h
    exact ⟨rfl, hnd, hlast, List.prefix_refl _⟩
  | cons b rest ih =>
    intro gl gl1 pid pid1 h hlast hnd hlt
    simp only [reloads] at h
    cases hb : main_compile drv gl b with
    | exited c o => rw [hb] at h; cases h
    | linked gl2 pid2 =>
      rw [hb] at h
      obtain ⟨e1, e2, e3⟩ := programs_main_compile drv gl gl2 b pid2 hb
      have e2n : @Eq Nat pid2 (gl.next_name + 2) := e2
      have e3n : @Eq Nat gl2.next_name (gl.next_name + 3) := e3
      have hnd2 : gl2.programs.Nodup := by
        rw [e1]
        refine List.Nodup.append hnd (List.nodup_singleton _) ?_
        intro x hx hx2
        rw [List.mem_singleton] at hx2
        have h1 : @LT.lt Nat _ x gl.next_name := hlt x hx
        have h2 : @Eq Nat x pid2 := hx2
        omega
      have hlt2 : ∀ n ∈ gl2.programs, n < gl2.next_name := by
        intro n hn
        show @LT.lt Nat _ n gl2.next_name
        rw [e1] at hn
        rcases List.mem_append.mp hn with hn | hn
        · have h1 : @LT.lt Nat _ n gl.next_name := hlt n hn
          omega
        · have h2 : @Eq Nat n pid2 := List.mem_singleton.mp hn
          omega
      have hlast2 : gl2.programs.getLast? = some pid2 := by
        rw [e1]; simp
      obtain ⟨r1, r2, r3, r4⟩ := ih gl2 gl1 pid2 pid1 h hlast2 hnd2 hlt2
      refine ⟨?_, r2, r3, ?_⟩
      · rw [r1, e1]
        simp only [List.length_append, List.length_cons, List.length_nil]
        omega
      · exact List.IsPrefix.trans (by rw [e1]; exact List.prefix_append _ _) r4


/-- C4, as stated, fails: after start-up and one reload that compiles and links, two
program objects are live, the one of start-up (name 3) and the one of the reload (name 6,
the value of `pid`). -/
theorem two_programs_live_after_one_reload :
    (startup_then_reloads accepting_driver
      ⟨default_fshader_src, ⟨1, []⟩, ⟨1, []⟩, ⟨1, []⟩⟩
      [⟨default_fshader_src, ⟨1, []⟩, ⟨1, []⟩, ⟨1, []⟩⟩]).map
        (fun r => (r.1.programs, r.2)) = some ([3, 6], 6) := by
  decide

/-- C4, amended: after start-up and `N` reloads none of which ends the process, exactly
`N + 1` program objects are live, under distinct names: no reload releases a program, the
program of start-up is still live, and the newest one is the value of `pid`, which the
loop binds for drawing. -/
theorem programs_accumulate_over_reloads (drv : Driver) (first : Build) (rs : List Build)
    (gl : GLContext) (pid : GLuint)
    (h : startup_then_reloads drv first rs = some (gl, pid)) :
    gl.programs.length = rs.length + 1 ∧ gl.programs.Nodup ∧
    gl.programs.getLast? = some pid ∧
    ∀ gl0 pid0, main_compile drv GLContext.empty first = .linked gl0 pid0 →
      pid0 ∈ gl.programs := by
  unfold startup_then_reloads at h
  cases hb : main_compile drv GLContext.empty first with
  | exited c o => rw [hb] at h; cases h
  | linked gl0 pid0 =>
    rw [hb] at h
    obtain ⟨e1, e2, e3⟩ := programs_main_compile drv GLContext.empty gl0 first pid0 hb
    have hp : gl0.programs = [pid0] := by rw [e1]; rfl
    obtain ⟨r1, r2, r3, r4⟩ := programs_reloads drv rs gl0 gl pid0 pid h
      (by rw [hp]; rfl) (by rw [hp]; exact List.nodup_singleton _)
      (by
        intro n hn
        rw [hp, List.mem_singleton] at hn
        have h1 : @Eq Nat n pid0 := hn
        have h2 : @Eq Nat pid0 (GLContext.empty.next_name + 2) := e2
        have h3 : @Eq Nat gl0.next_name (GLContext.empty.next_name + 3) := e3
        show @LT.lt Nat _ n gl0.next_name
        omega)
    refine ⟨?_, r2, r3, ?_⟩
    · rw [r1, hp]; simp only [List.length_singleton]; omega
    · intro gl0' pid0' hl
      injection hl with _ hpid
      rw [← hpid]
      exact r4.subset (by rw [hp]; exact List.mem_singleton.mpr rfl)

theorem programs_accumulate_over_reloads_witness :
    startup_then_reloads accepting_driver
      ⟨default_fshader_src, ⟨1, []⟩, ⟨1, []⟩, ⟨1, []⟩⟩
      [⟨mismatched_fshader_src, ⟨0, []⟩, ⟨0, []⟩, ⟨7, []⟩⟩] =
      some (((startup_then_reloads accepting_driver
        ⟨default_fshader_src, ⟨1, []⟩, ⟨1, []⟩, ⟨1, []⟩⟩
        [⟨mismatched_fshader_src, ⟨0, []⟩, ⟨0, []⟩, ⟨7, []⟩⟩]).getD (GLContext.empty, 0)).1, 6) ∧
    ((startup_then_reloads accepting_driver
        ⟨default_fshader_src, ⟨1, []⟩, ⟨1, []⟩, ⟨1, []⟩⟩
        [⟨mismatched_fshader_src, ⟨0, []⟩, ⟨0, []⟩, ⟨7, []⟩⟩]).getD
          (GLContext.empty, 0)).1.programs.length = 1 + 1 :=
  ⟨by decide,
   (programs_accumulate_over_reloads accepting_driver
      ⟨default_fshader_src, ⟨1, []⟩, ⟨1, []⟩, ⟨1, []⟩⟩
      [⟨mismatched_fshader_src, ⟨0, []⟩, ⟨0, []⟩, ⟨7, []⟩⟩] _ 6 (by decide)).1⟩

/-- C5: when linking has failed (the new program object has link status false),
`compile_program` does not look at it: `glGetShaderiv` and `glGetShaderInfoLog` are
given a program name and write nothing, so the value returned is decided by what `succ`
held on entry. A non-zero `succ` gives `true` without any diagnostic; a zero `succ` gives
`false` with a diagnostic whose log is what `log` held on entry, not the link log. -/
theorem compile_program_link_failure_unchecked (drv : Driver) (gl : GLContext)
    (vid fid : GLuint) (locals : Locals)
    (hlink : ∃ att log, (compile_program drv gl vid fid locals).gl.lookup
      (compile_program drv gl vid fid locals).id = some (.program att false log)) :
    (locals.succ ≠ 0 → (compile_program drv gl vid fid locals).ok = true ∧
      (compile_program drv gl vid fid locals).out = []) ∧
    (locals.succ = 0 → (compile_program drv gl vid fid locals).ok = false ∧
      (compile_program drv gl vid fid locals).out =
        [{ type_str := some "shader program".toList, log := locals.log }]) := by
  obtain ⟨att, log, hl⟩ := hlink
  simp only [compile_program] at hl ⊢
  constructor
  · intro hs
    simp [check_compile_errors, glGetShaderiv_compile_status, glGetShaderInfoLog, hl, hs]
  · intro hs
    simp [check_compile_errors, glGetShaderiv_compile_status, glGetShaderInfoLog, hl, hs,
      GL_PROGRAM, GL_VERTEX_SHADER, GL_FRAGMENT_SHADER]


theorem compile_program_link_failure_unchecked_witness :
    (∃ att log, (compile_program link_failing_driver
        (compile_shader link_failing_driver
          (compile_shader link_failing_driver GLContext.empty vshader_src GL_VERTEX_SHADER
            ⟨0, []⟩).gl
          mismatched_fshader_src GL_FRAGMENT_SHADER ⟨0, []⟩).gl 1 2 ⟨1, []⟩).gl.lookup 3 =
        some (.program att false log)) ∧
    (compile_program link_failing_driver
        (compile_shader link_failing_driver
          (compile_shader link_failing_driver GLContext.empty vshader_src GL_VERTEX_SHADER
            ⟨0, []⟩).gl
          mismatched_fshader_src GL_FRAGMENT_SHADER ⟨0, []⟩).gl 1 2 ⟨1, []⟩).ok = true ∧
    (compile_program link_failing_driver
        (compile_shader link_failing_driver
          (compile_shader link_failing_driver GLContext.empty vshader_src GL_VERTEX_SHADER
            ⟨0, []⟩).gl
          mismatched_fshader_src GL_FRAGMENT_SHADER ⟨0, []⟩).gl 1 2 ⟨1, []⟩).out = [] :=
  ⟨⟨[1, 2], (link_failing_driver.link []).2, by decide⟩,
   (compile_program_link_failure_unchecked link_failing_driver
      (compile_shader link_failing_driver
        (compile_shader link_failing_driver GLContext.empty vshader_src GL_VERTEX_SHADER
          ⟨0, []⟩).gl
        mismatched_fshader_src GL_FRAGMENT_SHADER ⟨0, []⟩).gl 1 2 ⟨1, []⟩
      ⟨[1, 2], (link_failing_driver.link []).2, by decide⟩).1 (by decide)⟩

/-- With a fragment shader that compiles but does not link, and a non-zero value left in
`succ`, the block "Compile shaders" does not call `exit`: it runs to its end and hands
the unlinked program 3 to the main loop. -/
theorem main_compile_keeps_unlinked_program :
    (match main_compile link_failing_driver GLContext.empty
        ⟨mismatched_fshader_src, ⟨0, []⟩, ⟨0, []⟩, ⟨1, []⟩⟩ with
      | .exited _ _ => none
      | .linked gl pid => some (pid, (gl.lookup pid).map (fun o =>
          match o with
          | .program _ ls _ => ls
          | .shader _ _ _ _ _ => true))) = some (3, some false) := by
  decide

/-! ### `load_file` -/

/-- Writing back the element that a list already holds at an index changes nothing. -/
theorem set_same {α : Type} (l : List α) (i : Nat) (x : α) (h : l[i]? = some x) :
    l.set i x = l := by
  apply List.ext_getElem?
  intro j
  by_cases hij : i = j
  · subst hij
    have hlt : i < l.length := lt_length_of_getElem? l i x h
    rw [List.getElem?_set_self hlt, h]
  · rw [List.getElem?_set_ne hij]

theorem store_freed (h : Heap) (p : Ptr) (v : Nat) (hf : h.blocks[p.block]? = some none) :
    h.store p v = none := by
  simp [Heap.store, hf]

theorem set_take_drop (cells : List Cell) (off : Nat) (b : Nat) (rest : List Cell) (r : Nat)
    (hlt : off < cells.length) :
    (cells.set off (some b)).take (off + 1) ++ rest ++
        (cells.set off (some b)).drop (off + 1 + r) =
      cells.take off ++ some b :: rest ++ cells.drop (off + (r + 1)) := by
  rw [List.drop_set_of_lt _ _ (by omega)]
  have h1 : (cells.set off (some b)).take (off + 1) = cells.take off ++ [some b] := by
    rw [List.set_eq_take_append_cons_drop, if_pos hlt]
    have hl : (cells.take off).length = off := by
      rw [List.length_take]; omega
    rw [List.take_append_eq_append_take, hl, List.take_of_length_le (by omega)]
    simp
  rw [h1]
  have : off + 1 + r = off + (r + 1) := by omega
  rw [this]
  simp

/-- Storing bytes inside a live block succeeds and changes these bytes only. -/
theorem store_bytes_ok (data : List Nat) :
    ∀ (h : Heap) (p : Ptr) (cells : List Cell),
      h.blocks[p.block]? = some (some cells) → p.offset + data.length ≤ cells.length →
      h.store_bytes p data = some (Heap.mk (h.blocks.set p.block
        (some (cells.take p.offset ++ data.map some ++
          cells.drop (p.offset + data.length))))) := by
  induction data with
  | nil =>
    intro h p cells hb _
    simp only [Heap.store_bytes, List.map_nil, List.append_nil, List.length_nil, Nat.add_zero,
      List.take_append_drop]
    rw [set_same _ _ _ hb]
  | cons b rest ih =>
    intro h p cells hb hlen
    simp only [List.length_cons] at hlen
    have hlt : p.offset < cells.length := by omega
    have hblk : p.block < h.blocks.length := lt_length_of_getElem? _ _ _ hb
    simp only [Heap.store_bytes, Heap.store, hb, hlt, if_true]
    have hb1 : (h.blocks.set p.block (some (cells.set p.offset (some b))))[p.block]? =
        some (some (cells.set p.offset (some b))) := by
      rw [List.getElem?_set_self hblk]
    have := ih (Heap.mk (h.blocks.set p.block (some (cells.set p.offset (some b)))))
      ⟨p.block, p.offset + 1⟩ (cells.set p.offset (some b)) hb1
      (by simp only [List.length_set]; omega)
    rw [this]
    simp only [List.set_set, List.map_cons, List.length_cons]
    rw [set_take_drop cells p.offset b (rest.map some) rest.length hlt]

theorem store_bytes_freed (h : Heap) (p : Ptr) (b : Nat) (rest : List Nat)
    (hf : h.blocks[p.block]? = some none) : h.store_bytes p (b :: rest) = none := by
  simp [Heap.store_bytes, store_freed h p b hf]


/-- Once `block` points into a freed block, the next pass of the loop stores through it. -/
theorem load_loop_freed (alloc : Allocator) (fuel : Nat) (h : Heap) (content block : Ptr)
    (csize k : Nat) (stream : List Nat) (hf : h.blocks[block.block]? = some none) :
    load_loop alloc (fuel + 1) h content block csize k stream = some .fault := by
  cases hd : stream.take chunk with
  | nil =>
    have hs : h.store ⟨block.block, block.offset⟩ 0 = none := store_freed h _ 0 hf
    have hc : ¬ (0 = chunk) := by decide
    simp [load_loop, fread, hd, Heap.store_bytes, hs, hc]
  | cons b rest =>
    simp [load_loop, fread, hd, store_bytes_freed h block b rest hf]

theorem fread_first_chunk (h : Heap) (bytes : List Nat) (hlen : chunk ≤ bytes.length) :
    fread (calloc h chunk).1 (calloc h chunk).2 chunk bytes =
      some (Heap.mk (h.blocks ++ [some ((bytes.take chunk).map some)]), chunk,
        bytes.drop chunk) := by
  have hb : (calloc h chunk).1.blocks[(calloc h chunk).2.block]? =
      some (some (List.replicate chunk (some 0))) := by
    simp [calloc]
  have hl : (bytes.take chunk).length = chunk := by
    rw [List.length_take]; omega
  have := store_bytes_ok (bytes.take chunk) (calloc h chunk).1 (calloc h chunk).2 _ hb
    (by rw [hl]; simp [calloc])
  simp only [fread, this, hl]
  congr 3
  simp [calloc, List.set_append]

/-- C3: when the file has 4096 bytes or more and the first `realloc` moves the buffer,
`load_file` does not return the contents: `block` still points into the block that
`realloc` freed, and the next store through it (the next chunk, or the terminating zero)
is outside any live block. -/
theorem load_file_stale_block_after_realloc (alloc : Allocator) (h : Heap)
    (bytes : List Nat) (hlen : chunk ≤ bytes.length) (hok : alloc.calloc_ok = true)
    (hmove : alloc.realloc 0 = .moves) :
    load_file alloc h (some bytes) = some .fault := by
  obtain ⟨k, hk⟩ : ∃ k, bytes.length / chunk + 1 = k + 1 + 1 :=
    ⟨bytes.length / chunk - 1, by
      have : 1 ≤ bytes.length / chunk :=
        (Nat.le_div_iff_mul_le (by decide)).mpr (by omega)
      omega⟩
  have hfr := fread_first_chunk h bytes hlen
  simp only [load_file, hok, if_true, hk]
  rw [load_loop]
  simp only [hfr, if_true, hmove]
  have hget : (h.blocks ++ [some ((bytes.take chunk).map some)])[(calloc h chunk).2.block]? =
      some (some ((bytes.take chunk).map some)) := by
    simp [calloc]
  simp only [realloc, hget]
  apply load_loop_freed
  have e1 : (h.blocks ++ [some ((bytes.take chunk).map some)]).set h.blocks.length none =
      h.blocks ++ [none] := by
    simp [List.set_append]
  show (List.set (h.blocks ++ [some ((bytes.take chunk).map some)]) h.blocks.length none
    ++ _)[h.blocks.length]? = some none
  rw [e1, List.append_assoc]
  exact getElem?_at_length _ _ _

theorem load_file_stale_block_after_realloc_witness :
    chunk ≤ (List.replicate 4096 97).length ∧ moving_allocator.calloc_ok = true ∧
    moving_allocator.realloc 0 = .moves ∧
    load_file moving_allocator Heap.empty (some (List.replicate 4096 97)) = some .fault :=
  ⟨by rw [List.length_replicate]; exact Nat.le_refl _, rfl, rfl,
   load_file_stale_block_after_realloc moving_allocator Heap.empty (List.replicate 4096 97)
     (by rw [List.length_replicate]; exact Nat.le_refl _) rfl rfl⟩

theorem resize_cells_grow (cells : List Cell) (n : Nat) (hn : cells.length ≤ n) :
    resize_cells cells n = cells ++ List.replicate (n - cells.length) none := by
  unfold resize_cells
  apply List.take_of_length_le
  simp only [List.length_append, List.length_replicate]
  omega

/-- A store of `data` at the end of the bytes `done` already in the block. -/
theorem store_bytes_after (h : Heap) (c : Nat) (done data : List Nat) (tail : List Cell)
    (hb : h.blocks[c]? = some (some (done.map some ++ tail)))
    (hlen : data.length ≤ tail.length) :
    h.store_bytes ⟨c, done.length⟩ data = some (Heap.mk (h.blocks.set c
      (some ((done ++ data).map some ++ tail.drop data.length)))) := by
  have := store_bytes_ok data h ⟨c, done.length⟩ _ hb
    (by simp only [List.length_append, List.length_map]; omega)
  rw [this]
  have h1 : (done.map some ++ tail).take done.length = done.map some :=
    List.take_left' (by simp)
  have h2 : (done.map some ++ tail).drop (done.length + data.length) =
      tail.drop data.length := by
    rw [← List.drop_drop, List.drop_left' (by simp)]
  simp only [h1, h2, List.map_append]

/-- Loop invariant of `load_file` when `realloc` resizes in place: the block holds the
bytes read so far followed by one chunk of room, and `block` points at that room. -/
theorem load_loop_in_place (alloc : Allocator) (fuel : Nat) :
    ∀ (h : Heap) (c csize k : Nat) (done stream : List Nat) (tail : List Cell),
      h.blocks[c]? = some (some (done.map some ++ tail)) → tail.length = chunk →
      csize = done.length + chunk → stream.length / chunk < fuel →
      (∀ j, k ≤ j → j < k + stream.length / chunk → alloc.realloc j = .in_place) →
      ∃ h1 rest, load_loop alloc fuel h ⟨c, 0⟩ ⟨c, done.length⟩ csize k stream =
          some (.returned h1 ⟨c, 0⟩) ∧
        h1.blocks[c]? = some (some ((done ++ stream).map some ++ some 0 :: rest)) := by
  induction fuel with
  | zero => intro h c csize k done stream tail _ _ _ hf; exact absurd hf (Nat.not_lt_zero _)
  | succ f ih =>
    intro h c csize k done stream tail hb htail hcs hf hin
    have hc : 0 < chunk := by decide
    have hblk : c < h.blocks.length := lt_length_of_getElem? _ _ _ hb
    by_cases hs : stream.length < chunk
    · -- the last read: fewer than `chunk` bytes
      have htake : stream.take chunk = stream := List.take_of_length_le (by omega)
      have hst := store_bytes_after h c done stream tail hb (by omega)
      obtain ⟨t, ts, hts⟩ : ∃ t ts, tail.drop stream.length = t :: ts := by
        cases hd : tail.drop stream.length with
        | nil =>
          have := congrArg List.length hd
          simp only [List.length_drop, List.length_nil] at this
          omega
        | cons t ts => exact ⟨t, ts, rfl⟩
      have hne : ¬ stream.length = chunk := by omega
      refine ⟨Heap.mk ((h.blocks.set c (some ((done ++ stream).map some ++
        tail.drop stream.length))).set c (some ((done ++ stream).map some ++ some 0 :: ts))),
        ts, ?_, ?_⟩
      · simp only [load_loop, fread, htake, hst, hne, if_false, Heap.store]
        rw [List.getElem?_set_self hblk]
        have hlt : done.length + stream.length <
            ((done ++ stream).map some ++ tail.drop stream.length).length := by
          simp only [List.length_append, List.length_map, List.length_drop]
          omega
        simp only [hlt, if_true]
        congr 5
        rw [hts]
        have hl : ((done ++ stream).map some).length = done.length + stream.length := by
          simp
        rw [← hl, List.set_append_right _ _ (Nat.le_refl _), Nat.sub_self]
        rfl
      · simp only [List.set_set]
        rw [List.getElem?_set_self hblk]
    · -- a full chunk was read: grow and go round again
      have hl : (stream.take chunk).length = chunk := by
        rw [List.length_take]; omega
      have hst := store_bytes_after h c done (stream.take chunk) tail hb (by omega)
      have hdrop : tail.drop (stream.take chunk).length = [] := by
        apply List.drop_of_length_le; omega
      rw [hdrop, List.append_nil] at hst
      have hk := hin k (Nat.le_refl _) (by
        have : 1 ≤ stream.length / chunk := (Nat.le_div_iff_mul_le hc).mpr (by omega)
        omega)
      have hdiv : (stream.drop chunk).length / chunk + 1 = stream.length / chunk := by
        rw [List.length_drop]
        have : stream.length = (stream.length - chunk) + chunk := by omega
        conv_rhs => rw [this]
        rw [Nat.add_div_right _ hc]
      have hgrow : resize_cells ((done ++ stream.take chunk).map some) (csize + chunk) =
          (done ++ stream.take chunk).map some ++ List.replicate chunk none := by
        rw [resize_cells_grow _ _ (by simp only [List.length_map, List.length_append]; omega)]
        congr 2
        simp only [List.length_map, List.length_append]
        omega
      obtain ⟨h1, rest, hrun, hres⟩ := ih
        (Heap.mk ((h.blocks.set c (some ((done ++ stream.take chunk).map some))).set c
          (some ((done ++ stream.take chunk).map some ++ List.replicate chunk none))))
        c (csize + chunk) (k + 1) (done ++ stream.take chunk) (stream.drop chunk)
        (List.replicate chunk none)
        (by simp only [List.set_set]; rw [List.getElem?_set_self hblk])
        (List.length_replicate _ _)
        (by simp only [List.length_append]; omega)
        (by omega)
        (fun j hj1 hj2 => hin j (by omega) (by omega))
      refine ⟨h1, rest, ?_, ?_⟩
      · simp only [load_loop, fread, hst, hl, if_true, hk, realloc]
        rw [List.getElem?_set_self hblk]
        simp only [hgrow]
        have hlen2 : (done ++ stream.take chunk).length = done.length + chunk := by
          simp only [List.length_append]; omega
        rw [hlen2] at hrun
        exact hrun
      · rw [hres, List.append_assoc, List.take_append_drop]


/-- When every `realloc` that the file needs resizes the buffer in place (none is needed
for a file shorter than 4096 bytes), `load_file` returns with `*content` holding the
bytes of the file followed by a zero byte, and every store was inside the block. -/
theorem load_file_in_place_returns_contents (alloc : Allocator) (h : Heap)
    (bytes : List Nat) (hok : alloc.calloc_ok = true)
    (hin : ∀ j, j < bytes.length / chunk → alloc.realloc j = .in_place) :
    ∃ h1, load_file alloc h (some bytes) = some (.returned h1 ⟨h.blocks.length, 0⟩) ∧
      h1.read ⟨h.blocks.length, 0⟩ (bytes.length + 1) = some (bytes.map some ++ [some 0]) := by
  obtain ⟨h1, rest, hrun, hres⟩ := load_loop_in_place alloc (bytes.length / chunk + 1)
    (calloc h chunk).1 h.blocks.length chunk 0 [] bytes (List.replicate chunk (some 0))
    (by
      show (h.blocks ++ [_])[h.blocks.length]? = _
      rw [getElem?_at_length]; rfl)
    (List.length_replicate _ _) (by simp) (Nat.lt_succ_self _)
    (fun j _ hj => hin j (by omega))
  refine ⟨h1, ?_, ?_⟩
  · simp only [load_file, hok, if_true]
    exact hrun
  · simp only [List.nil_append] at hres
    simp only [Heap.read, hres, List.drop_zero, Nat.zero_add]
    have hle : bytes.length + 1 ≤ (bytes.map some ++ some 0 :: rest).length := by
      simp only [List.length_append, List.length_map, List.length_cons]; omega
    rw [if_pos hle]
    congr 1
    have : bytes.map some ++ some 0 :: rest = (bytes.map some ++ [some 0]) ++ rest := by simp
    rw [this]
    exact List.take_left' (by simp)

/-- A file shorter than 4096 bytes needs no `realloc`: whatever the allocator would do,
`load_file` returns with `*content` holding the bytes of the file and a zero byte. -/
theorem load_file_short_file (alloc : Allocator) (h : Heap) (bytes : List Nat)
    (hok : alloc.calloc_ok = true) (hshort : bytes.length < chunk) :
    ∃ h1, load_file alloc h (some bytes) = some (.returned h1 ⟨h.blocks.length, 0⟩) ∧
      h1.read ⟨h.blocks.length, 0⟩ (bytes.length + 1) = some (bytes.map some ++ [some 0]) :=
  load_file_in_place_returns_contents alloc h bytes hok (fun j hj => by
    rw [Nat.div_eq_of_lt hshort] at hj
    exact absurd hj (Nat.not_lt_zero _))

/-- A file of 10000 bytes is read whole when `realloc` resizes in place. -/
theorem load_file_in_place_example :
    ∃ h1, load_file in_place_allocator Heap.empty (some (List.replicate 10000 97)) =
        some (.returned h1 ⟨0, 0⟩) ∧
      h1.read ⟨0, 0⟩ 10001 = some ((List.replicate 10000 97).map some ++ [some 0]) := by
  have := load_file_in_place_returns_contents in_place_allocator Heap.empty
    (List.replicate 10000 97) rfl (fun _ _ => rfl)
  rw [List.length_replicate] at this
  exact this

end Canvas
